import Mathlib

/-!
Verification development for the heat-pump contribution analysis service
(`src/app.py`).

The service holds an immutable in-memory dataset of energy observations and
answers queries about the fractional contribution of heat-pump consumption:

* `get_heatpump_share` (app.py lines 169-189): location-filtered groupby-mean
  of `heatpump_pct` at hourly / daily / monthly resolution;
* `get_summary_metrics` (app.py lines 191-209): mean / max / min / count;
* `list_locations` (app.py lines 158-167): de-duplicated, Location-sorted
  (Location, Town) catalog with an optional case-insensitive Town filter;
* `download_report` (app.py lines 222-233): the raw location-filtered rows.

The embedding models pandas frames as lists of records, pandas `groupby(k)
[col].mean()` (which emits one row per distinct key, sorted ascending by key)
as sort-of-deduplicated-keys plus per-key filtered means, and the float
columns as exact rationals (binary floating point representation error is
abstracted away; no claim below depends on it).
-/

namespace HeatPump

/-! ### Time model

`df['timestamp']` is normalized to UTC on load (app.py line 49) and the
bucket columns `hour`, `date`, `month` are derived from it (lines 50-53).
-/

/-- A civil (wall-clock) date-time reading, field by field. -/
structure DateTime where
  year : Nat
  month : Nat
  day : Nat
  hour : Nat
  minute : Nat
  second : Nat
deriving DecidableEq

/-- A raw dataset timestamp: a civil reading together with its UTC offset in
minutes (`2023-01-31T23:30:00+01:00` is `⟨⟨2023,1,31,23,30,0⟩, 60⟩`;
a trailing `Z` is offset `0`). -/
structure RawTimestamp where
  civil : DateTime
  tzOffsetMinutes : Int
deriving DecidableEq

def isLeapYear (y : Nat) : Bool :=
  (y % 4 == 0 && y % 100 != 0) || y % 400 == 0

def daysInMonth (y m : Nat) : Nat :=
  if m = 2 then (if isLeapYear y then 29 else 28)
  else if m = 4 ∨ m = 6 ∨ m = 9 ∨ m = 11 then 30
  else 31

/-- The calendar day after `(y, m, d)`. -/
def nextDay (y m d : Nat) : Nat × Nat × Nat :=
  if d < daysInMonth y m then (y, m, d + 1)
  else if m < 12 then (y, m + 1, 1)
  else (y + 1, 1, 1)

/-- The calendar day before `(y, m, d)`. -/
def prevDay (y m d : Nat) : Nat × Nat × Nat :=
  if 1 < d then (y, m, d - 1)
  else if 1 < m then (y, m - 1, daysInMonth y (m - 1))
  else (y - 1, 12, 31)

/-- The UTC normalization performed by `pd.to_datetime(df['timestamp'],
utc=True)` (app.py line 49): the instant denoted by a civil reading plus UTC
offset, re-expressed as a UTC civil reading.  Subtracting the offset moves
the clock reading; since every real-world offset is strictly less than one
day in magnitude, the calendar date shifts by at most one day, which is
handled by a single borrow/carry. -/
def toUTC (t : RawTimestamp) : DateTime :=
  let c := t.civil
  let tot : Int := (c.hour * 60 + c.minute : Nat) - t.tzOffsetMinutes
  if tot < 0 then
    let tot' := tot + 1440
    let ymd := prevDay c.year c.month c.day
    ⟨ymd.1, ymd.2.1, ymd.2.2, (tot' / 60).toNat, (tot' % 60).toNat, c.second⟩
  else if tot < 1440 then
    ⟨c.year, c.month, c.day, (tot / 60).toNat, (tot % 60).toNat, c.second⟩
  else
    let tot' := tot - 1440
    let ymd := nextDay c.year c.month c.day
    ⟨ymd.1, ymd.2.1, ymd.2.2, (tot' / 60).toNat, (tot' % 60).toNat, c.second⟩

/-! ### Records and the loaded dataset -/

/-- One normalized dataset row, after the load-time pass of app.py lines
49-61: timestamp already converted to UTC, `Location` and `Town` already
whitespace-stripped.  Energy and percentage columns are modelled as exact
rationals. -/
structure Record where
  timestamp : DateTime
  Location : String
  Town : String
  total_energy_kWh : Rat
  heatpump_pct : Rat
deriving DecidableEq

/-- One raw dataset row as loaded from the file, before normalization. -/
structure RawRecord where
  ts : RawTimestamp
  Location : String
  Town : String
  total_energy_kWh : Rat
  heatpump_pct : Rat

/-- The load-time normalization pass (app.py lines 49-61): UTC-normalize the
timestamp, strip whitespace from `Location` and `Town`. -/
def ingestRecord (r : RawRecord) : Record :=
  ⟨toUTC r.ts, r.Location.trim, r.Town.trim, r.total_energy_kWh, r.heatpump_pct⟩

/-- The `date` column key type: `(year, month, day)` (app.py line 51,
`df['timestamp'].dt.date`, taken of the UTC-normalized timestamp). -/
abbrev DKey := Nat × Nat × Nat
/-- The hourly groupby key type: `(date, hour)` (app.py line 181). -/
abbrev HKey := DKey × Nat
/-- The `month` column key type: `(year, month)` — a pandas `Period("M")`
(app.py line 53, after `dt.tz_localize(None)` strips the UTC offset
metadata, leaving the UTC civil reading). -/
abbrev MKey := Nat × Nat

/-- `df['date']` (app.py line 51): the UTC calendar date of the record. -/
def dateCol (r : Record) : DKey :=
  (r.timestamp.year, r.timestamp.month, r.timestamp.day)

/-- `df['hour']` (app.py line 50): the UTC hour-of-day of the record. -/
def hourCol (r : Record) : Nat := r.timestamp.hour

/-- The composite key of `groupby(['date', 'hour'])` (app.py line 181). -/
def hourKey (r : Record) : HKey := (dateCol r, hourCol r)

/-- `df['month']` (app.py line 53): `(year, month)` of the timestamp after
`dt.tz_localize(None)` removed the (already-UTC) offset metadata, i.e. the
`(year, month)` of the UTC civil reading stored in `Record.timestamp`. -/
def monthCol (r : Record) : MKey := (r.timestamp.year, r.timestamp.month)

/-! ### Key ordering and the sorted-groupby engine

pandas `groupby(keys)[col].mean()` emits one row per distinct key, sorted
ascending by key (`sort=True` is the groupby default); multi-column keys,
`datetime.date` values and monthly `Period`s all compare lexicographically /
chronologically.  We model the key order with explicit boolean strict-order
functions and a small insertion sort.
-/

/-- Strict order on `Nat` as a boolean. -/
def natLtB (a b : Nat) : Bool := decide (a < b)

/-- Lexicographic combination: compare first components by `la`, break ties
with `lb`. -/
def pairLt {α β : Type} [DecidableEq α]
    (la : α → α → Bool) (lb : β → β → Bool) (p q : α × β) : Bool :=
  if p.1 = q.1 then lb p.2 q.2 else la p.1 q.1

/-- Chronological (lexicographic) strict order on calendar dates. -/
def dkeyLt : DKey → DKey → Bool := pairLt natLtB (pairLt natLtB natLtB)

/-- Chronological strict order on `(date, hour)` pairs. -/
def hkeyLt : HKey → HKey → Bool := pairLt dkeyLt natLtB

/-- Chronological strict order on `(year, month)` periods. -/
def mkeyLt : MKey → MKey → Bool := pairLt natLtB natLtB

/-- The reflexive closure of a strict order, as used for sorting. -/
def ltLe {κ : Type} [DecidableEq κ] (lt : κ → κ → Bool) (a b : κ) : Bool :=
  if a = b then true else lt a b

/-- Insert `k` into `l` in front of the first element it is `le`-below. -/
def insertKey {κ : Type} (le : κ → κ → Bool) (k : κ) : List κ → List κ
  | [] => [k]
  | x :: xs => if le k x then k :: x :: xs else x :: insertKey le k xs

/-- Insertion sort by the boolean relation `le`. -/
def sortKeys {κ : Type} (le : κ → κ → Bool) (l : List κ) : List κ :=
  l.foldr (insertKey le) []

/-- Arithmetic mean of a list of rationals (the groupby `.mean()` reducer;
only ever applied to non-empty groups). -/
def mean (xs : List Rat) : Rat := xs.sum / (xs.length : Rat)

/-- `location_df.groupby(ks)['heatpump_pct'].mean().reset_index()` for a key
extractor `ks` with strict key order `lt`: one `(key, mean)` row per distinct
key of the input, sorted ascending by key, the value being the mean of
`heatpump_pct` over exactly the records with that key. -/
def groupMeans {κ : Type} [DecidableEq κ]
    (lt : κ → κ → Bool) (key : Record → κ) (rs : List Record) :
    List (κ × Rat) :=
  (sortKeys (ltLe lt) (rs.map key).dedup).map fun k =>
    (k, mean ((rs.filter fun r => decide (key r = k)).map Record.heatpump_pct))

/-! ### The API operations -/

/-- The only client-visible error of the modelled endpoints: HTTP 404
"Location not found". -/
inductive ApiError where
  | LocationNotFound
deriving DecidableEq

/-- The `resolution` query parameter, `Literal["hourly","daily","monthly"]`
(app.py line 172); FastAPI rejects any other value at the boundary. -/
inductive Resolution where
  | hourly
  | daily
  | monthly
deriving DecidableEq

/-- The rows returned by `/heatpump/share`, tagged by resolution (the three
branches carry differently-shaped bucket keys). -/
inductive ShareResult where
  | hourly : List (HKey × Rat) → ShareResult
  | daily : List (DKey × Rat) → ShareResult
  | monthly : List (MKey × Rat) → ShareResult
deriving DecidableEq

/-- `df[df['Location'] == location]` — the location-filtered view used by
every `/heatpump/*` endpoint (exact, case-sensitive match, original row
order preserved). -/
def filterByLocation (db : List Record) (location : String) : List Record :=
  db.filter fun r => decide (r.Location = location)

/-- `GET /heatpump/share` (app.py lines 169-189): filter by location, 404 if
empty, otherwise groupby-mean of `heatpump_pct` at the requested
resolution. -/
def get_heatpump_share (db : List Record) (location : String)
    (resolution : Resolution) : Except ApiError ShareResult :=
  let location_df := filterByLocation db location
  if location_df.isEmpty then .error .LocationNotFound
  else
    match resolution with
    | .hourly => .ok (.hourly (groupMeans hkeyLt hourKey location_df))
    | .daily => .ok (.daily (groupMeans dkeyLt dateCol location_df))
    | .monthly => .ok (.monthly (groupMeans mkeyLt monthCol location_df))

/-- Round half to even at integer precision (Python's `round`). -/
def roundHalfEven (q : Rat) : Int :=
  let f := ⌊q⌋
  if q - f < 1/2 then f
  else if (1:Rat)/2 < q - f then f + 1
  else if f % 2 = 0 then f else f + 1

/-- Python's `round(x, 2)` on exact rationals. -/
def round2 (q : Rat) : Rat := (roundHalfEven (q * 100) : Rat) / 100

/-- pandas `Series.max()`; the empty case is never reached behind the
non-emptiness guard (pandas would yield NaN there). -/
def seriesMax : List Rat → Rat
  | [] => 0
  | x :: xs => xs.foldl max x

/-- pandas `Series.min()`; the empty case is never reached behind the
non-emptiness guard. -/
def seriesMin : List Rat → Rat
  | [] => 0
  | x :: xs => xs.foldl min x

/-- The response body of `/heatpump/summary` (app.py lines 203-209). -/
structure Summary where
  location : String
  average_heatpump_pct : Rat
  max_heatpump_pct : Rat
  min_heatpump_pct : Rat
  data_points : Nat
deriving DecidableEq

/-- `GET /heatpump/summary` (app.py lines 191-209): filter by location, 404
if empty, otherwise mean/max/min of `heatpump_pct` rounded to 2 decimal
places plus the row count. -/
def get_summary_metrics (db : List Record) (location : String) :
    Except ApiError Summary :=
  let location_df := filterByLocation db location
  if location_df.isEmpty then .error .LocationNotFound
  else
    let pcts := location_df.map Record.heatpump_pct
    .ok ⟨location, round2 (mean pcts), round2 (seriesMax pcts),
         round2 (seriesMin pcts), location_df.length⟩

/-- `GET /heatpump/report` (app.py lines 222-233): filter by location, 404 if
empty, otherwise the filtered rows themselves (their CSV byte-serialization
is outside the modelled core). -/
def download_report (db : List Record) (location : String) :
    Except ApiError (List Record) :=
  let location_df := filterByLocation db location
  if location_df.isEmpty then .error .LocationNotFound
  else .ok location_df

/-! ### The location catalog

`GET /locations` (app.py lines 158-167) filters by
`df['Town'].str.contains(Town, case=False, na=False)` — pandas
`str.contains` with its default `regex=True` compiles the filter with
`re.IGNORECASE` and performs a **regular-expression search**, not a literal
substring test.  A full embedding of Python `re` is out of reach, so the
model is explicitly partial: a *compiled fragment* (case-folded literals,
the `.` wildcard, and the `\\d` / `\\D` digit classes) is interpreted
exactly; a pattern that certainly fails to compile (an unescaped, unclosed
`(` — `re.error: missing ), unterminated subpattern`) is mapped to an
explicit error outcome, because the exception propagates out of the
endpoint and no row sequence is returned; and every other pattern is marked
as outside the model, about which no theorem asserts anything.  Case
folding is modelled on the ASCII letters, matching `Char.toLower`; towns
are taken from the ASCII alphabet.
-/

/-- A boolean strict total order. -/
structure IsSTO {κ : Type} (lt : κ → κ → Bool) : Prop where
  irrefl : ∀ a, lt a a = false
  trans : ∀ a b c, lt a b = true → lt b c = true → lt a c = true
  total : ∀ a b, a ≠ b → lt a b = true ∨ lt b a = true

theorem natLtB_sto : IsSTO natLtB where
  irrefl a := by simp [natLtB]
  trans a b c h1 h2 := by simp only [natLtB, decide_eq_true_eq] at *; omega
  total a b h := by simp only [natLtB, decide_eq_true_eq]; omega

theorem pairLt_sto {α β : Type} [DecidableEq α]
    {la : α → α → Bool} {lb : β → β → Bool}
    (ha : IsSTO la) (hb : IsSTO lb) : IsSTO (pairLt la lb) := by
  constructor
  · intro a
    simp [pairLt, hb.irrefl, ha.irrefl]
  · intro a b c h1 h2
    simp only [pairLt] at h1 h2 ⊢
    by_cases e1 : a.1 = b.1 <;> by_cases e2 : b.1 = c.1
    · have e3 : a.1 = c.1 := e1.trans e2
      rw [if_pos e1] at h1
      rw [if_pos e2] at h2
      rw [if_pos e3]
      exact hb.trans _ _ _ h1 h2
    · have e3 : ¬ a.1 = c.1 := by rw [e1]; exact e2
      rw [if_pos e1] at h1
      rw [if_neg e2] at h2
      rw [if_neg e3, e1]
      exact h2
    · have e3 : ¬ a.1 = c.1 := fun h => e1 (h.trans e2.symm)
      rw [if_neg e1] at h1
      rw [if_pos e2] at h2
      rw [if_neg e3, ← e2]
      exact h1
    · rw [if_neg e1] at h1
      rw [if_neg e2] at h2
      have h3 := ha.trans _ _ _ h1 h2
      by_cases e3 : a.1 = c.1
      · rw [e3] at h3
        rw [ha.irrefl c.1] at h3
        exact absurd h3 (by simp)
      · rw [if_neg e3]
        exact h3
  · intro a b hne
    by_cases e : a.1 = b.1
    · have e2 : a.2 ≠ b.2 := by
        intro h2
        apply hne
        cases a
        cases b
        simp_all
      simp only [pairLt, if_pos e, if_pos e.symm]
      exact hb.total _ _ e2
    · simp only [pairLt, if_neg e, if_neg (fun h : b.1 = a.1 => e h.symm)]
      exact ha.total _ _ e

theorem dkeyLt_sto : IsSTO dkeyLt := pairLt_sto natLtB_sto (pairLt_sto natLtB_sto natLtB_sto)

theorem hkeyLt_sto : IsSTO hkeyLt := pairLt_sto dkeyLt_sto natLtB_sto

theorem mkeyLt_sto : IsSTO mkeyLt := pairLt_sto natLtB_sto natLtB_sto

theorem ltLe_true_iff {κ : Type} [DecidableEq κ] (lt : κ → κ → Bool) (a b : κ) :
    ltLe lt a b = true ↔ a = b ∨ lt a b = true := by
  simp only [ltLe]
  split <;> simp_all

theorem ltLe_total {κ : Type} [DecidableEq κ] {lt : κ → κ → Bool} (h : IsSTO lt)
    (a b : κ) : ltLe lt a b = true ∨ ltLe lt b a = true := by
  by_cases e : a = b
  · left; simp [ltLe, e]
  · rcases h.total a b e with h1 | h1
    · left; rw [ltLe_true_iff]; exact Or.inr h1
    · right; rw [ltLe_true_iff]; exact Or.inr h1

theorem ltLe_trans {κ : Type} [DecidableEq κ] {lt : κ → κ → Bool} (h : IsSTO lt)
    (a b c : κ) (h1 : ltLe lt a b = true) (h2 : ltLe lt b c = true) :
    ltLe lt a c = true := by
  rw [ltLe_true_iff] at *
  rcases h1 with rfl | h1
  · exact h2
  · rcases h2 with rfl | h2
    · exact Or.inr h1
    · exact Or.inr (h.trans _ _ _ h1 h2)

theorem insertKey_perm {κ : Type} (le : κ → κ → Bool) (k : κ) (l : List κ) :
    List.Perm (insertKey le k l) (k :: l) := by
  induction l with
  | nil => rfl
  | cons x xs ih =>
    simp only [insertKey]
    split
    · rfl
    · exact ((ih.cons x).trans (List.Perm.swap k x xs))

theorem sortKeys_perm {κ : Type} (le : κ → κ → Bool) (l : List κ) :
    List.Perm (sortKeys le l) l := by
  induction l with
  | nil => rfl
  | cons x xs ih =>
    simp only [sortKeys, List.foldr_cons]
    exact (insertKey_perm le x _).trans (ih.cons x)

theorem mem_insertKey {κ : Type} (le : κ → κ → Bool) (k a : κ) (l : List κ) :
    a ∈ insertKey le k l ↔ a = k ∨ a ∈ l := by
  rw [(insertKey_perm le k l).mem_iff, List.mem_cons]

theorem pairwise_insertKey {κ : Type} {le : κ → κ → Bool}
    (htot : ∀ a b, le a b = true ∨ le b a = true)
    (htr : ∀ a b c, le a b = true → le b c = true → le a c = true)
    (k : κ) {l : List κ} (hl : l.Pairwise fun a b => le a b = true) :
    (insertKey le k l).Pairwise fun a b => le a b = true := by
  induction l with
  | nil => simp [insertKey]
  | cons x xs ih =>
    rcases List.pairwise_cons.mp hl with ⟨hx, hxs⟩
    simp only [insertKey]
    split <;> rename_i hkx
    · refine List.pairwise_cons.mpr ⟨?_, hl⟩
      intro b hb
      rcases List.mem_cons.mp hb with rfl | hb
      · exact hkx
      · exact htr _ _ _ hkx (hx b hb)
    · refine List.pairwise_cons.mpr ⟨?_, ih hxs⟩
      intro b hb
      rcases (mem_insertKey le k b xs).mp hb with rfl | hb
      · rcases htot b x with h | h
        · exact absurd h hkx
        · exact h
      · exact hx b hb

theorem pairwise_sortKeys {κ : Type} {le : κ → κ → Bool}
    (htot : ∀ a b, le a b = true ∨ le b a = true)
    (htr : ∀ a b c, le a b = true → le b c = true → le a c = true)
    (l : List κ) : (sortKeys le l).Pairwise fun a b => le a b = true := by
  induction l with
  | nil => simp [sortKeys]
  | cons x xs ih =>
    simp only [sortKeys, List.foldr_cons]
    exact pairwise_insertKey htot htr x ih

theorem pairwise_strict_of_nodup {κ : Type} [DecidableEq κ] {lt : κ → κ → Bool}
    {l : List κ} (hp : l.Pairwise fun a b => ltLe lt a b = true)
    (hn : l.Nodup) : l.Pairwise fun a b => lt a b = true := by
  refine (hp.and hn).imp ?_
  rintro a b ⟨h1, h2⟩
  rcases (ltLe_true_iff lt a b).mp h1 with rfl | h1
  · exact absurd rfl h2
  · exact h1

/-! ### Lemmas about `groupMeans` -/

theorem groupMeans_keys {κ : Type} [DecidableEq κ]
    (lt : κ → κ → Bool) (key : Record → κ) (rs : List Record) :
    (groupMeans lt key rs).map Prod.fst = sortKeys (ltLe lt) (rs.map key).dedup := by
  have hcomp : (Prod.fst ∘ fun k : κ =>
      (k, mean ((rs.filter fun r => decide (key r = k)).map Record.heatpump_pct)))
      = id := rfl
  unfold groupMeans
  rw [List.map_map, hcomp, List.map_id]

theorem groupMeans_keys_perm {κ : Type} [DecidableEq κ]
    (lt : κ → κ → Bool) (key : Record → κ) (rs : List Record) :
    List.Perm ((groupMeans lt key rs).map Prod.fst) (rs.map key).dedup := by
  rw [groupMeans_keys]
  exact sortKeys_perm _ _

theorem groupMeans_mem_keys {κ : Type} [DecidableEq κ]
    (lt : κ → κ → Bool) (key : Record → κ) (rs : List Record) (k : κ) :
    k ∈ (groupMeans lt key rs).map Prod.fst ↔ k ∈ rs.map key := by
  rw [(groupMeans_keys_perm lt key rs).mem_iff]
  exact List.mem_dedup

theorem groupMeans_value {κ : Type} [DecidableEq κ]
    {lt : κ → κ → Bool} {key : Record → κ} {rs : List Record}
    {p : κ × Rat} (hp : p ∈ groupMeans lt key rs) :
    p.2 = mean ((rs.filter fun r => decide (key r = p.1)).map Record.heatpump_pct) := by
  rcases List.mem_map.mp hp with ⟨k, _, rfl⟩
  rfl

theorem groupMeans_keys_nodup {κ : Type} [DecidableEq κ]
    (lt : κ → κ → Bool) (key : Record → κ) (rs : List Record) :
    ((groupMeans lt key rs).map Prod.fst).Nodup :=
  (groupMeans_keys_perm lt key rs).nodup_iff.mpr (rs.map key).nodup_dedup

theorem groupMeans_keys_pairwise {κ : Type} [DecidableEq κ]
    {lt : κ → κ → Bool} (hsto : IsSTO lt) (key : Record → κ) (rs : List Record) :
    ((groupMeans lt key rs).map Prod.fst).Pairwise fun a b => lt a b = true := by
  rw [groupMeans_keys]
  exact pairwise_strict_of_nodup
    (pairwise_sortKeys (ltLe_total hsto) (ltLe_trans hsto) _)
    ((sortKeys_perm _ _).nodup_iff.mpr (rs.map key).nodup_dedup)

/-! ### The counting argument: groups partition the input -/

theorem sum_indicator_not_mem {κ : Type} [DecidableEq κ]
    (ks : List κ) (c : κ) (hn : c ∉ ks) :
    (ks.map fun k => if c = k then 1 else 0).sum = 0 := by
  induction ks with
  | nil => rfl
  | cons k ks ih =>
    have h1 : ¬ c = k := fun h => hn (h ▸ List.mem_cons_self k ks)
    have h2 : c ∉ ks := fun h => hn (List.mem_cons_of_mem k h)
    simp [h1, ih h2]

theorem sum_indicator_mem {κ : Type} [DecidableEq κ]
    (ks : List κ) (c : κ) (hd : ks.Nodup) (hm : c ∈ ks) :
    (ks.map fun k => if c = k then 1 else 0).sum = 1 := by
  induction ks with
  | nil => cases hm
  | cons k ks ih =>
    rcases List.nodup_cons.mp hd with ⟨hk, hks⟩
    by_cases h1 : c = k
    · subst h1
      simp [sum_indicator_not_mem ks c hk]
    · rcases List.mem_cons.mp hm with h2 | h2
      · exact absurd h2 h1
      · simp [h1, ih hks h2]

theorem sum_group_sizes {κ : Type} [DecidableEq κ]
    (key : Record → κ) (ks : List κ) (rs : List Record)
    (hd : ks.Nodup) (hcov : ∀ r ∈ rs, key r ∈ ks) :
    (ks.map fun k => ((rs.filter fun r => decide (key r = k)).length : Nat)).sum
      = rs.length := by
  induction rs with
  | nil => simp
  | cons r rs ih =>
    have hsplit : ∀ k : κ, ((r :: rs).filter fun x => decide (key x = k)).length
        = (if key r = k then 1 else 0)
          + ((rs.filter fun x => decide (key x = k)).length : Nat) := by
      intro k
      by_cases h : key r = k <;> simp [List.filter_cons, h, Nat.add_comm]
    have hcov' : ∀ x ∈ rs, key x ∈ ks := fun x hx => hcov x (List.mem_cons_of_mem r hx)
    calc (ks.map fun k => ((r :: rs).filter fun x => decide (key x = k)).length).sum
        = (ks.map fun k => (if key r = k then 1 else 0)
            + ((rs.filter fun x => decide (key x = k)).length : Nat)).sum := by
          exact congrArg List.sum (List.map_congr_left fun k _ => hsplit k)
      _ = (ks.map fun k => if key r = k then 1 else 0).sum
            + (ks.map fun k => ((rs.filter fun x => decide (key x = k)).length : Nat)).sum := by
          exact List.sum_map_add
      _ = 1 + rs.length := by
          rw [sum_indicator_mem ks (key r) hd (hcov r (List.mem_cons_self r rs)), ih hcov']
      _ = (r :: rs).length := by simp [Nat.add_comm]

/-! ### Fold-based max / min of a series -/

theorem le_foldl_max (xs : List Rat) (a : Rat) : a ≤ xs.foldl max a := by
  induction xs generalizing a with
  | nil => exact le_refl a
  | cons x xs ih => exact le_trans (le_max_left a x) (ih (max a x))

theorem mem_le_foldl_max (xs : List Rat) (a x : Rat) (hx : x ∈ xs) :
    x ≤ xs.foldl max a := by
  induction xs generalizing a with
  | nil => cases hx
  | cons y ys ih =>
    rcases List.mem_cons.mp hx with rfl | h
    · exact le_trans (le_max_right a x) (le_foldl_max ys (max a x))
    · exact ih (max a y) h

theorem foldl_max_mem (xs : List Rat) (a : Rat) :
    xs.foldl max a = a ∨ xs.foldl max a ∈ xs := by
  induction xs generalizing a with
  | nil => exact Or.inl rfl
  | cons x xs ih =>
    rcases ih (max a x) with h | h
    · rcases max_choice a x with h2 | h2
      · exact Or.inl (by rw [List.foldl_cons, h, h2])
      · exact Or.inr (by rw [List.foldl_cons, h, h2]; exact List.mem_cons_self x xs)
    · exact Or.inr (List.mem_cons_of_mem x h)

theorem foldl_min_le (xs : List Rat) (a : Rat) : xs.foldl min a ≤ a := by
  induction xs generalizing a with
  | nil => exact le_refl a
  | cons x xs ih => exact le_trans (ih (min a x)) (min_le_left a x)

theorem foldl_min_le_mem (xs : List Rat) (a x : Rat) (hx : x ∈ xs) :
    xs.foldl min a ≤ x := by
  induction xs generalizing a with
  | nil => cases hx
  | cons y ys ih =>
    rcases List.mem_cons.mp hx with rfl | h
    · exact le_trans (foldl_min_le ys (min a x)) (min_le_right a x)
    · exact ih (min a y) h

theorem foldl_min_mem (xs : List Rat) (a : Rat) :
    xs.foldl min a = a ∨ xs.foldl min a ∈ xs := by
  induction xs generalizing a with
  | nil => exact Or.inl rfl
  | cons x xs ih =>
    rcases ih (min a x) with h | h
    · rcases min_choice a x with h2 | h2
      · exact Or.inl (by rw [List.foldl_cons, h, h2])
      · exact Or.inr (by rw [List.foldl_cons, h, h2]; exact List.mem_cons_self x xs)
    · exact Or.inr (List.mem_cons_of_mem x h)

theorem seriesMax_mem (xs : List Rat) (hne : xs ≠ []) : seriesMax xs ∈ xs := by
  match xs with
  | [] => exact absurd rfl hne
  | x :: ys =>
    rcases foldl_max_mem ys x with h | h
    · rw [seriesMax, h]; exact List.mem_cons_self x ys
    · exact List.mem_cons_of_mem x h

theorem seriesMax_bound (xs : List Rat) (x : Rat) (hx : x ∈ xs) :
    x ≤ seriesMax xs := by
  match xs with
  | y :: ys =>
    rcases List.mem_cons.mp hx with rfl | h
    · exact le_foldl_max ys x
    · exact mem_le_foldl_max ys y x h

theorem seriesMin_mem (xs : List Rat) (hne : xs ≠ []) : seriesMin xs ∈ xs := by
  match xs with
  | [] => exact absurd rfl hne
  | x :: ys =>
    rcases foldl_min_mem ys x with h | h
    · rw [seriesMin, h]; exact List.mem_cons_self x ys
    · exact List.mem_cons_of_mem x h

theorem seriesMin_bound (xs : List Rat) (x : Rat) (hx : x ∈ xs) :
    seriesMin xs ≤ x := by
  match xs with
  | y :: ys =>
    rcases List.mem_cons.mp hx with rfl | h
    · exact foldl_min_le ys x
    · exact foldl_min_le_mem ys y x h

/-! ### ASCII case folding facts (about Lean core `Char.toLower` / `Char.toUpper`,
used to reason about the `case=False` town filter) -/

theorem char_toNat_ofNat (n : Nat) (h : n.isValidChar) : (Char.ofNat n).toNat = n := by
  simp [Char.ofNat, h, Char.ofNatAux, Char.toNat, UInt32.toNat, BitVec.toNat_ofNatLt]

theorem char_eq_of_toNat_eq {c d : Char} (h : c.toNat = d.toNat) : c = d :=
  Char.eq_of_val_eq (UInt32.ext h)

theorem toNat_toLower (c : Char) :
    c.toLower.toNat = if 65 ≤ c.toNat ∧ c.toNat ≤ 90 then c.toNat + 32 else c.toNat := by
  simp only [Char.toLower, ge_iff_le]
  split_ifs with h1
  · have hv : (c.toNat + 32).isValidChar := Or.inl (by omega)
    exact char_toNat_ofNat _ hv
  · rfl

theorem toNat_toUpper (c : Char) :
    c.toUpper.toNat = if 97 ≤ c.toNat ∧ c.toNat ≤ 122 then c.toNat - 32 else c.toNat := by
  simp only [Char.toUpper, ge_iff_le]
  split_ifs with h1
  · have hv : (c.toNat - 32).isValidChar := Or.inl (by omega)
    exact char_toNat_ofNat _ hv
  · rfl

theorem toLower_eq_dot (c : Char) : c.toLower = '.' ↔ c = '.' := by
  constructor
  · intro h
    have h1 : c.toLower.toNat = ('.' : Char).toNat := by rw [h]
    rw [toNat_toLower] at h1
    have h2 : ('.' : Char).toNat = 46 := by decide
    apply char_eq_of_toNat_eq
    rw [h2]
    rw [h2] at h1
    split_ifs at h1 <;> omega
  · intro h; rw [h]; decide

theorem toUpper_eq_dot (c : Char) : c.toUpper = '.' ↔ c = '.' := by
  constructor
  · intro h
    have h1 : c.toUpper.toNat = ('.' : Char).toNat := by rw [h]
    rw [toNat_toUpper] at h1
    have h2 : ('.' : Char).toNat = 46 := by decide
    apply char_eq_of_toNat_eq
    rw [h2]
    rw [h2] at h1
    split_ifs at h1 <;> omega
  · intro h; rw [h]; decide

/-! ### Character-level facts for reasoning about pattern case mapping -/

/-- What the spec asserts of one groupby-mean output: its key set is exactly
the key set of the input records; every row's value is the arithmetic mean
of `heatpump_pct` over exactly the input records with that key; and a
singleton group's value is that record's `heatpump_pct`. -/
def groupSpec {κ : Type} [DecidableEq κ] (key : Record → κ) (rs : List Record)
    (out : List (κ × Rat)) : Prop :=
  (∀ k, k ∈ out.map Prod.fst ↔ k ∈ rs.map key) ∧
  (∀ p ∈ out,
    p.2 = mean ((rs.filter fun r => decide (key r = p.1)).map Record.heatpump_pct)) ∧
  (∀ p ∈ out, ∀ r : Record,
    (rs.filter fun x => decide (key x = p.1)) = [r] → p.2 = r.heatpump_pct)

/-- `groupSpec` at the resolution actually served. -/
def shareGroups (ldf : List Record) : ShareResult → Prop
  | .hourly out => groupSpec hourKey ldf out
  | .daily out => groupSpec dateCol ldf out
  | .monthly out => groupSpec monthCol ldf out

/-- The served bucket sequence is strictly ascending chronologically and
free of duplicate keys. -/
def shareSorted : ShareResult → Prop
  | .hourly out => (out.map Prod.fst).Pairwise (fun a b => hkeyLt a b = true)
      ∧ (out.map Prod.fst).Nodup
  | .daily out => (out.map Prod.fst).Pairwise (fun a b => dkeyLt a b = true)
      ∧ (out.map Prod.fst).Nodup
  | .monthly out => (out.map Prod.fst).Pairwise (fun a b => mkeyLt a b = true)
      ∧ (out.map Prod.fst).Nodup

/-- The group sizes over the served buckets sum to the number of input
records: the groups partition the location's records. -/
def shareCounts (ldf : List Record) : ShareResult → Prop
  | .hourly out => (((out.map Prod.fst).map fun k =>
      (ldf.filter fun r => decide (hourKey r = k)).length).sum : Nat) = ldf.length
  | .daily out => (((out.map Prod.fst).map fun k =>
      (ldf.filter fun r => decide (dateCol r = k)).length).sum : Nat) = ldf.length
  | .monthly out => (((out.map Prod.fst).map fun k =>
      (ldf.filter fun r => decide (monthCol r = k)).length).sum : Nat) = ldf.length

/-! ### Assembled facts about `groupMeans` -/

theorem groupSpec_groupMeans {κ : Type} [DecidableEq κ]
    (lt : κ → κ → Bool) (key : Record → κ) (rs : List Record) :
    groupSpec key rs (groupMeans lt key rs) := by
  refine ⟨fun k => groupMeans_mem_keys lt key rs k,
    fun p hp => groupMeans_value hp, ?_⟩
  intro p hp r hr
  rw [groupMeans_value hp, hr]
  simp [mean]

theorem groupMeans_counts {κ : Type} [DecidableEq κ]
    (lt : κ → κ → Bool) (key : Record → κ) (rs : List Record) :
    ((((groupMeans lt key rs).map Prod.fst).map fun k =>
      (rs.filter fun r => decide (key r = k)).length).sum : Nat) = rs.length := by
  have hperm := (groupMeans_keys_perm lt key rs).map
    fun k => ((rs.filter fun r => decide (key r = k)).length : Nat)
  rw [hperm.sum_eq]
  exact sum_group_sizes key _ rs (rs.map key).nodup_dedup
    fun r hr => List.mem_dedup.mpr (List.mem_map_of_mem key hr)

/-! ### Assembled behavior of the endpoints (shared by several claims) -/

theorem share_ok_spec (db : List Record) (location : String)
    (resolution : Resolution) (h : filterByLocation db location ≠ []) :
    ∃ out, get_heatpump_share db location resolution = .ok out ∧
      shareGroups (filterByLocation db location) out ∧
      shareSorted out ∧
      shareCounts (filterByLocation db location) out := by
  have he : (filterByLocation db location).isEmpty = false := by
    rcases hl : filterByLocation db location with _ | ⟨a, l⟩
    · exact absurd hl h
    · rfl
  cases resolution with
  | hourly =>
    refine ⟨.hourly (groupMeans hkeyLt hourKey (filterByLocation db location)),
      ?_, ?_, ⟨?_, ?_⟩, ?_⟩
    · simp [get_heatpump_share, he]
    · exact groupSpec_groupMeans _ _ _
    · exact groupMeans_keys_pairwise hkeyLt_sto _ _
    · exact groupMeans_keys_nodup _ _ _
    · exact groupMeans_counts _ _ _
  | daily =>
    refine ⟨.daily (groupMeans dkeyLt dateCol (filterByLocation db location)),
      ?_, ?_, ⟨?_, ?_⟩, ?_⟩
    · simp [get_heatpump_share, he]
    · exact groupSpec_groupMeans _ _ _
    · exact groupMeans_keys_pairwise dkeyLt_sto _ _
    · exact groupMeans_keys_nodup _ _ _
    · exact groupMeans_counts _ _ _
  | monthly =>
    refine ⟨.monthly (groupMeans mkeyLt monthCol (filterByLocation db location)),
      ?_, ?_, ⟨?_, ?_⟩, ?_⟩
    · simp [get_heatpump_share, he]
    · exact groupSpec_groupMeans _ _ _
    · exact groupMeans_keys_pairwise mkeyLt_sto _ _
    · exact groupMeans_keys_nodup _ _ _
    · exact groupMeans_counts _ _ _

theorem summary_ok_spec (db : List Record) (location : String)
    (h : filterByLocation db location ≠ []) :
    ∃ s, get_summary_metrics db location = .ok s ∧
      s.location = location ∧
      s.data_points = (filterByLocation db location).length ∧
      (∃ μ : Rat,
        μ * (((filterByLocation db location).map Record.heatpump_pct).length : Rat)
          = ((filterByLocation db location).map Record.heatpump_pct).sum ∧
        s.average_heatpump_pct = round2 μ) ∧
      (∃ M ∈ (filterByLocation db location).map Record.heatpump_pct,
        (∀ x ∈ (filterByLocation db location).map Record.heatpump_pct, x ≤ M) ∧
        s.max_heatpump_pct = round2 M) ∧
      (∃ m ∈ (filterByLocation db location).map Record.heatpump_pct,
        (∀ x ∈ (filterByLocation db location).map Record.heatpump_pct, m ≤ x) ∧
        s.min_heatpump_pct = round2 m) := by
  have he : (filterByLocation db location).isEmpty = false := by
    rcases hl : filterByLocation db location with _ | ⟨a, l⟩
    · exact absurd hl h
    · rfl
  have hpne : (filterByLocation db location).map Record.heatpump_pct ≠ [] := by
    intro hc
    exact h (List.map_eq_nil_iff.mp hc)
  refine ⟨⟨location,
      round2 (mean ((filterByLocation db location).map Record.heatpump_pct)),
      round2 (seriesMax ((filterByLocation db location).map Record.heatpump_pct)),
      round2 (seriesMin ((filterByLocation db location).map Record.heatpump_pct)),
      (filterByLocation db location).length⟩,
    ?_, rfl, rfl, ?_, ?_, ?_⟩
  · simp [get_summary_metrics, he]
  · refine ⟨mean ((filterByLocation db location).map Record.heatpump_pct), ?_, rfl⟩
    have hlen : (((filterByLocation db location).map Record.heatpump_pct).length : Rat) ≠ 0 := by
      rw [Nat.cast_ne_zero]
      intro hc
      exact hpne (List.length_eq_zero.mp hc)
    rw [mean]
    exact div_mul_cancel₀ _ hlen
  · exact ⟨seriesMax _, seriesMax_mem _ hpne, fun x hx => seriesMax_bound _ x hx, rfl⟩
  · exact ⟨seriesMin _, seriesMin_mem _ hpne, fun x hx => seriesMin_bound _ x hx, rfl⟩

/-! ### Concrete sample datasets for the witnesses -/

def sampleTs (h : Nat) : DateTime := ⟨2023, 1, 1, h, 0, 0⟩

/-- The spec's worked example: location "A" has three records on one
calendar date with `heatpump_pct` 10, 20, 30; a second location exists for
contrast. -/
def sampleDb : List Record :=
  [⟨sampleTs 0, "A", "TownX", 5, 10⟩,
   ⟨sampleTs 1, "A", "TownX", 5, 20⟩,
   ⟨sampleTs 2, "A", "TownX", 5, 30⟩,
   ⟨sampleTs 3, "B", "TownY", 5, 50⟩]

/-- A dataset whose location "C" carries a `heatpump_pct` outside `[0,100]`. -/
def outlierDb : List Record :=
  [⟨sampleTs 0, "C", "TownZ", 5, 50⟩,
   ⟨sampleTs 1, "C", "TownZ", 5, 150⟩]

/-- C1: for every non-empty location-filtered record sequence and every
resolution in {hourly, daily, monthly}, getShare groups the records by that
resolution's bucket key (hourly by (date, hour), daily by the calendar date,
monthly by (year, month)) and maps each group to the arithmetic mean of the
`heatpump_pct` of exactly its member records; a singleton group yields that
record's value; and the output bucket keys are exactly the bucket keys
occurring in the input, with no padding to a dense calendar. -/
theorem claim_C1 (db : List Record) (location : String)
    (resolution : Resolution) (h : filterByLocation db location ≠ []) :
    ∃ out, get_heatpump_share db location resolution = .ok out ∧
      shareGroups (filterByLocation db location) out := by
  rcases share_ok_spec db location resolution h with ⟨out, h1, h2, _, _⟩
  exact ⟨out, h1, h2⟩

/-- Witness for C1: the sample dataset, location "A", daily resolution. -/
theorem claim_C1_witness :
    filterByLocation sampleDb "A" ≠ [] ∧
    ∃ out, get_heatpump_share sampleDb "A" .daily = .ok out ∧
      shareGroups (filterByLocation sampleDb "A") out :=
  ⟨by decide, claim_C1 sampleDb "A" .daily (by decide)⟩

/-- C2: getShare and getSummary answer LocationNotFound exactly when the
location-filtered record sequence (exact, case-sensitive match) is empty —
the emptiness test is the first thing both handlers do, before any
aggregation or statistics — and they succeed exactly when it is non-empty;
in particular `getShare("unknown-location", "daily")` on the sample dataset
raises LocationNotFound. -/
theorem claim_C2 :
    (∀ (db : List Record) (location : String) (resolution : Resolution),
      (get_heatpump_share db location resolution = .error .LocationNotFound ↔
        filterByLocation db location = []) ∧
      ((∃ out, get_heatpump_share db location resolution = .ok out) ↔
        filterByLocation db location ≠ [])) ∧
    (∀ (db : List Record) (location : String),
      (get_summary_metrics db location = .error .LocationNotFound ↔
        filterByLocation db location = []) ∧
      ((∃ s, get_summary_metrics db location = .ok s) ↔
        filterByLocation db location ≠ [])) ∧
    get_heatpump_share sampleDb "unknown-location" .daily
      = .error .LocationNotFound := by
  refine ⟨?_, ?_, ?_⟩
  · intro db location resolution
    rcases hl : filterByLocation db location with _ | ⟨a, l⟩
    · constructor
      · simp [get_heatpump_share, hl]
      · simp [get_heatpump_share, hl]
    · cases resolution
      all_goals constructor
      all_goals simp [get_heatpump_share, hl]
  · intro db location
    rcases hl : filterByLocation db location with _ | ⟨a, l⟩
    · constructor
      · simp [get_summary_metrics, hl]
      · simp [get_summary_metrics, hl]
    · constructor
      · simp [get_summary_metrics, hl]
      · simp [get_summary_metrics, hl]
  · rfl

/-- C3: whenever getShare answers, the sequence of (bucket-key, mean) pairs
is strictly ascending in chronological bucket order and has no duplicate
bucket keys, at every resolution. -/
theorem claim_C3 (db : List Record) (location : String)
    (resolution : Resolution) (h : filterByLocation db location ≠ []) :
    ∃ out, get_heatpump_share db location resolution = .ok out ∧
      shareSorted out := by
  rcases share_ok_spec db location resolution h with ⟨out, h1, _, h3, _⟩
  exact ⟨out, h1, h3⟩

/-- Witness for C3: the sample dataset, location "A", hourly resolution. -/
theorem claim_C3_witness :
    filterByLocation sampleDb "A" ≠ [] ∧
    ∃ out, get_heatpump_share sampleDb "A" .hourly = .ok out ∧
      shareSorted out :=
  ⟨by decide, claim_C3 sampleDb "A" .hourly (by decide)⟩

/-- C4: the groups formed by the aggregation partition the location's
records: the group sizes over all served buckets sum to the number of
filtered records, at every resolution. -/
theorem claim_C4 (db : List Record) (location : String)
    (resolution : Resolution) (h : filterByLocation db location ≠ []) :
    ∃ out, get_heatpump_share db location resolution = .ok out ∧
      shareCounts (filterByLocation db location) out := by
  rcases share_ok_spec db location resolution h with ⟨out, h1, _, _, h4⟩
  exact ⟨out, h1, h4⟩

/-- Witness for C4: the sample dataset, location "A", monthly resolution. -/
theorem claim_C4_witness :
    filterByLocation sampleDb "A" ≠ [] ∧
    ∃ out, get_heatpump_share sampleDb "A" .monthly = .ok out ∧
      shareCounts (filterByLocation sampleDb "A") out :=
  ⟨by decide, claim_C4 sampleDb "A" .monthly (by decide)⟩

/-- C5: for every non-empty location-filtered record sequence, getSummary
returns the arithmetic mean (the μ with μ·n = Σ over the n `heatpump_pct`
values), the attained maximum and the attained minimum of `heatpump_pct`,
each rounded to 2 decimal places, together with the record count; in
particular for location "A" of the sample dataset (values [10, 20, 30]) it
yields mean 20.0, max 30, min 10, count 3. -/
theorem claim_C5 :
    (∀ (db : List Record) (location : String),
      filterByLocation db location ≠ [] →
      ∃ s, get_summary_metrics db location = .ok s ∧
        s.location = location ∧
        s.data_points = (filterByLocation db location).length ∧
        (∃ μ : Rat,
          μ * (((filterByLocation db location).map Record.heatpump_pct).length : Rat)
            = ((filterByLocation db location).map Record.heatpump_pct).sum ∧
          s.average_heatpump_pct = round2 μ) ∧
        (∃ M ∈ (filterByLocation db location).map Record.heatpump_pct,
          (∀ x ∈ (filterByLocation db location).map Record.heatpump_pct, x ≤ M) ∧
          s.max_heatpump_pct = round2 M) ∧
        (∃ m ∈ (filterByLocation db location).map Record.heatpump_pct,
          (∀ x ∈ (filterByLocation db location).map Record.heatpump_pct, m ≤ x) ∧
          s.min_heatpump_pct = round2 m)) ∧
    get_summary_metrics sampleDb "A" = .ok ⟨"A", 20, 30, 10, 3⟩ := by
  constructor
  · exact summary_ok_spec
  · simp +decide [get_summary_metrics, filterByLocation, sampleDb, sampleTs,
      mean, seriesMax, seriesMin, round2, roundHalfEven, max_def, min_def]
    norm_num

/-- Witness for C5 at the sample dataset. -/
theorem claim_C5_witness :
    filterByLocation sampleDb "A" ≠ [] ∧
    ∃ s, get_summary_metrics sampleDb "A" = .ok s ∧
      s.location = "A" ∧
      s.data_points = (filterByLocation sampleDb "A").length ∧
      (∃ μ : Rat,
        μ * (((filterByLocation sampleDb "A").map Record.heatpump_pct).length : Rat)
          = ((filterByLocation sampleDb "A").map Record.heatpump_pct).sum ∧
        s.average_heatpump_pct = round2 μ) ∧
      (∃ M ∈ (filterByLocation sampleDb "A").map Record.heatpump_pct,
        (∀ x ∈ (filterByLocation sampleDb "A").map Record.heatpump_pct, x ≤ M) ∧
        s.max_heatpump_pct = round2 M) ∧
      (∃ m ∈ (filterByLocation sampleDb "A").map Record.heatpump_pct,
        (∀ x ∈ (filterByLocation sampleDb "A").map Record.heatpump_pct, m ≤ x) ∧
        s.min_heatpump_pct = round2 m) :=
  ⟨by decide, claim_C5.1 sampleDb "A" (by decide)⟩

/-- C6: the month bucket of a record is obtained by first discarding the
timezone offset metadata from the UTC-normalized timestamp (the UTC civil
reading) and then truncating to (year, month); in particular a record at
2023-01-31T23:30:00+01:00 buckets into January 2023 (its UTC civil date is
2023-01-31) and a record at 2023-02-01T00:10:00Z buckets into February
2023. -/
theorem claim_C6 :
    (∀ raw : RawRecord,
      monthCol (ingestRecord raw) = ((toUTC raw.ts).year, (toUTC raw.ts).month)) ∧
    monthCol (ingestRecord ⟨⟨⟨2023, 1, 31, 23, 30, 0⟩, 60⟩, "A", "T", 1, 10⟩)
      = (2023, 1) ∧
    monthCol (ingestRecord ⟨⟨⟨2023, 2, 1, 0, 10, 0⟩, 0⟩, "A", "T", 1, 10⟩)
      = (2023, 2) :=
  ⟨fun _ => rfl, by decide, by decide⟩

/-- C9: on records whose `heatpump_pct` lies outside [0,100], getSummary and
getShare still answer (no failure beyond the specified LocationNotFound is
possible) and do not clamp: the reported statistics are attained by / range
over the values exactly as given. -/
theorem claim_C9 (db : List Record) (location : String)
    (hne : filterByLocation db location ≠ [])
    (_hrange : ∃ r ∈ filterByLocation db location,
      r.heatpump_pct < 0 ∨ 100 < r.heatpump_pct) :
    (∃ s, get_summary_metrics db location = .ok s ∧
      (∃ M ∈ (filterByLocation db location).map Record.heatpump_pct,
        (∀ x ∈ (filterByLocation db location).map Record.heatpump_pct, x ≤ M) ∧
        s.max_heatpump_pct = round2 M) ∧
      (∃ m ∈ (filterByLocation db location).map Record.heatpump_pct,
        (∀ x ∈ (filterByLocation db location).map Record.heatpump_pct, m ≤ x) ∧
        s.min_heatpump_pct = round2 m) ∧
      (∃ μ : Rat,
        μ * (((filterByLocation db location).map Record.heatpump_pct).length : Rat)
          = ((filterByLocation db location).map Record.heatpump_pct).sum ∧
        s.average_heatpump_pct = round2 μ)) ∧
    (∀ resolution, ∃ out, get_heatpump_share db location resolution = .ok out ∧
      shareGroups (filterByLocation db location) out) := by
  constructor
  · rcases summary_ok_spec db location hne with ⟨s, h1, _, _, hμ, hM, hm⟩
    exact ⟨s, h1, hM, hm, hμ⟩
  · intro resolution
    rcases share_ok_spec db location resolution hne with ⟨out, h1, h2, _, _⟩
    exact ⟨out, h1, h2⟩

/-- Witness for C9: the outlier dataset, whose location "C" carries the
value 150 > 100. -/
theorem claim_C9_witness :
    filterByLocation outlierDb "C" ≠ [] ∧
    (∃ r ∈ filterByLocation outlierDb "C",
      r.heatpump_pct < 0 ∨ 100 < r.heatpump_pct) ∧
    ((∃ s, get_summary_metrics outlierDb "C" = .ok s ∧
      (∃ M ∈ (filterByLocation outlierDb "C").map Record.heatpump_pct,
        (∀ x ∈ (filterByLocation outlierDb "C").map Record.heatpump_pct, x ≤ M) ∧
        s.max_heatpump_pct = round2 M) ∧
      (∃ m ∈ (filterByLocation outlierDb "C").map Record.heatpump_pct,
        (∀ x ∈ (filterByLocation outlierDb "C").map Record.heatpump_pct, m ≤ x) ∧
        s.min_heatpump_pct = round2 m) ∧
      (∃ μ : Rat,
        μ * (((filterByLocation outlierDb "C").map Record.heatpump_pct).length : Rat)
          = ((filterByLocation outlierDb "C").map Record.heatpump_pct).sum ∧
        s.average_heatpump_pct = round2 μ)) ∧
    (∀ resolution, ∃ out, get_heatpump_share outlierDb "C" resolution = .ok out ∧
      shareGroups (filterByLocation outlierDb "C") out)) :=
  ⟨by decide, by decide, claim_C9 outlierDb "C" (by decide) (by decide)⟩

/-- C10: getReportRows answers LocationNotFound exactly on an empty filter
result, and otherwise returns exactly the records whose Location equals the
query — a subsequence of the dataset in its original order, each record
unmodified, kept with its full multiplicity. -/
theorem claim_C10 (db : List Record) (location : String) :
    (download_report db location = .error .LocationNotFound ↔
      filterByLocation db location = []) ∧
    (filterByLocation db location ≠ [] →
      ∃ rows, download_report db location = .ok rows ∧
        rows.Sublist db ∧
        (∀ r ∈ rows, r.Location = location) ∧
        (∀ r : Record, r.Location = location → rows.count r = db.count r)) := by
  constructor
  · rcases hl : filterByLocation db location with _ | ⟨a, l⟩
    · simp [download_report, hl]
    · simp [download_report, hl]
  · intro h
    have he : (filterByLocation db location).isEmpty = false := by
      rcases hl : filterByLocation db location with _ | ⟨a, l⟩
      · exact absurd hl h
      · rfl
    refine ⟨filterByLocation db location, by simp [download_report, he],
      ?_, ?_, ?_⟩
    · exact List.filter_sublist db
    · intro r hr
      exact of_decide_eq_true (List.mem_filter.mp hr).2
    · intro r hrloc
      exact List.count_filter (decide_eq_true hrloc)

/-- Witness for C10: location "B" of the sample dataset. -/
theorem claim_C10_witness :
    filterByLocation sampleDb "B" ≠ [] ∧
    ∃ rows, download_report sampleDb "B" = .ok rows ∧
      rows.Sublist sampleDb ∧
      (∀ r ∈ rows, r.Location = "B") ∧
      (∀ r : Record, r.Location = "B" → rows.count r = sampleDb.count r) :=
  ⟨by decide, (claim_C10 sampleDb "B").2 (by decide)⟩

end HeatPump
